import Mathlib

/-!
# Path-Finding-Game: verification of the path generator and game session

This file embeds the core logic of the Path-Finding-Game repository:

* the procedural path generator (`generatePath`), covering both source
  variants: the base variant (no horizontal-deviation bound, generation
  stops when no candidate move qualifies) and the deviation-limited
  variant (horizontal band around the start column, with a forced "up"
  fallback move when no shuffled candidate qualifies);
* the game-session state machine of both variants: the free-roam variant
  (`FreeRoam`) and the off-path recovery variant (`Recovery`).

Randomness (the in-place shuffle of the direction list performed at each
loop iteration) is modelled by a stream `dirs : Nat → List (Int × Int)`
giving the shuffled candidate list used at each iteration.  The source's
`while (y > 0)` loop is embedded with explicit fuel; we prove the fuel
`gridSize² + 1` is never exhausted, which is the termination argument.
Wall-clock times are modelled as rational numbers of milliseconds.
-/

/-- A grid cell, as a `(column, row)` pair of integers. -/
abbrev Cell := Int × Int

/-- `GRID_SIZE = 35` in both source files. -/
def GRID_SIZE : Int := 35

/-- `TIME_LIMIT = 12` seconds in both source files. -/
def TIME_LIMIT : ℚ := 12

/-- `MISTAKES_ALLOWED = 3` in both source files. -/
def MISTAKES_ALLOWED : Nat := 3

/-- `MAX_HORIZONTAL_DEVIATION = 4`, only present in the deviation-limited
source variant. -/
def MAX_HORIZONTAL_DEVIATION : Int := 4

/-- The candidate move set built at each loop iteration of `generatePath`
before shuffling: up, left, right (never down). -/
def directions : List (Int × Int) := [(0, -1), (-1, 0), (1, 0)]

/-- `isValidMove(path, x, y)`: the destination is within grid bounds and
not already in the path. -/
def isValidMove (gridSize : Int) (path : List Cell) (x y : Int) : Bool :=
  decide (0 ≤ x) && decide (x < gridSize) && decide (0 ≤ y) && decide (y < gridSize) &&
    !(path.any fun c => c.1 == x && c.2 == y)

/-- The `hasPoint` helper of `formsSquare`. -/
def hasPoint (path : List Cell) (px py : Int) : Bool :=
  path.any fun c => c.1 == px && c.2 == py

/-- `formsSquare(path, x, y)`: placing `(x, y)` would complete a 2×2 block
with three cells already present in the path. -/
def formsSquare (path : List Cell) (x y : Int) : Bool :=
  (hasPoint path (x - 1) y && hasPoint path x (y - 1) && hasPoint path (x - 1) (y - 1)) ||
  (hasPoint path (x + 1) y && hasPoint path x (y - 1) && hasPoint path (x + 1) (y - 1)) ||
  (hasPoint path (x - 1) y && hasPoint path x (y + 1) && hasPoint path (x - 1) (y + 1)) ||
  (hasPoint path (x + 1) y && hasPoint path x (y + 1) && hasPoint path (x + 1) (y + 1))

/-- The horizontal-deviation test.  `cfg = none` is the base variant (no
test); `cfg = some maxDev` is the deviation-limited variant's
`Math.abs(nx - startX) <= MAX_HORIZONTAL_DEVIATION`. -/
def devOk (startX : Int) (cfg : Option Int) (nx : Int) : Bool :=
  match cfg with
  | none => true
  | some maxDev => decide (|nx - startX| ≤ maxDev)

/-- The inner `for (const [dx, dy] of directions)` loop: accept the first
shuffled candidate that is a valid move, does not form a square, and (in
the deviation-limited variant) stays in the horizontal band. -/
def findMove (gridSize startX : Int) (cfg : Option Int) (path : List Cell) (x y : Int) :
    List (Int × Int) → Option Cell
  | [] => none
  | d :: rest =>
    let nx := x + d.1
    let ny := y + d.2
    if isValidMove gridSize path nx ny && !formsSquare path nx ny && devOk startX cfg nx then
      some (nx, ny)
    else
      findMove gridSize startX cfg path x y rest

/-- The `while (y > 0)` loop of `generatePath`, with explicit fuel.  The
path is accumulated most-recent-first (it is reversed by `generatePath`).
When no shuffled candidate qualifies, the base variant (`cfg = none`)
ends the path; the deviation-limited variant (`cfg = some _`) first tries
to force the "up" move, checking `isValidMove` alone. -/
def genAux (gridSize startX : Int) (cfg : Option Int) (dirs : Nat → List (Int × Int)) :
    Nat → Nat → Int → Int → List Cell → Option (List Cell)
  | 0, _, _, _, _ => none
  | fuel + 1, k, x, y, path =>
    if 0 < y then
      match findMove gridSize startX cfg path x y (dirs k) with
      | some c => genAux gridSize startX cfg dirs fuel (k + 1) c.1 c.2 (c :: path)
      | none =>
        match cfg with
        | none => some path
        | some _ =>
          if isValidMove gridSize path x (y - 1) then
            genAux gridSize startX cfg dirs fuel (k + 1) x (y - 1) ((x, y - 1) :: path)
          else
            some path
    else
      some path

/-- `generatePath`: start at `(⌊gridSize/2⌋, gridSize − 1)` and run the
generation loop.  `none` would mean fuel exhaustion, which is proved
impossible. -/
def generatePath (gridSize : Int) (cfg : Option Int) (dirs : Nat → List (Int × Int)) :
    Option (List Cell) :=
  let startX := gridSize / 2
  (genAux gridSize startX cfg dirs (gridSize.toNat * gridSize.toNat + 1) 0 startX
      (gridSize - 1) [(startX, gridSize - 1)]).map List.reverse

/-- No 2×2 block of four grid cells is fully contained in the cell set. -/
def NoSquare (l : List Cell) : Prop :=
  ∀ a b : Int, ¬((a, b) ∈ l ∧ (a + 1, b) ∈ l ∧ (a, b + 1) ∈ l ∧ (a + 1, b + 1) ∈ l)

/-- 4-adjacency: Manhattan distance exactly 1. -/
def Adjacent (a b : Cell) : Prop :=
  (a.1 - b.1).natAbs + (a.2 - b.2).natAbs = 1

/-- Invariant of the generation loop.  `path` is the accumulated path,
most-recent cell first; `(x, y)` is the current cell. -/
structure GenInv (gridSize startX : Int) (cfg : Option Int) (x y : Int)
    (path : List Cell) : Prop where
  head_eq : path.head? = some (x, y)
  last_eq : path.getLast? = some (startX, gridSize - 1)
  nodup : path.Nodup
  bounds : ∀ c ∈ path, 0 ≤ c.1 ∧ c.1 < gridSize ∧ 0 ≤ c.2 ∧ c.2 < gridSize
  row_lb : ∀ c ∈ path, y ≤ c.2
  no_square : NoSquare path
  dev : ∀ m, cfg = some m → ∀ c ∈ path, |c.1 - startX| ≤ m
  adj : path.Chain' Adjacent
  rows : path.Chain' fun a b => a.2 ≤ b.2

/-! ## The game session -/

/-- Session states: `idle → playing → {won | lost}`. -/
inductive GState : Type where
  | idle
  | playing
  | won
  | lost
  deriving DecidableEq

/-- `isWithinBounds(x, y)` at the source constant `GRID_SIZE`. -/
def isWithinBounds (x y : Int) : Bool :=
  decide (0 ≤ x) && decide (x < GRID_SIZE) && decide (0 ≤ y) && decide (y < GRID_SIZE)

/-- `isOnPath(x, y)` over a given path. -/
def isOnPath (path : List Cell) (x y : Int) : Bool :=
  path.any fun c => c.1 == x && c.2 == y

/-- The source's `e.key.toLowerCase()`, written as a char-wise map over
the string's characters so that it evaluates by reduction (ASCII key
names are lowercased char by char, which is what `toLowerCase` does on
them). -/
def lowerKey (key : String) : String :=
  String.mk (key.data.map Char.toLower)

/-- The key decoding of `handleKeyDown`: arrow keys and WASD,
case-insensitive, mapped to a unit delta; any other key is ignored. -/
def keyDelta (key : String) : Option (Int × Int) :=
  match lowerKey key with
  | "arrowleft" => some (-1, 0)
  | "a" => some (-1, 0)
  | "arrowright" => some (1, 0)
  | "d" => some (1, 0)
  | "arrowup" => some (0, -1)
  | "w" => some (0, -1)
  | "arrowdown" => some (0, 1)
  | "s" => some (0, 1)
  | _ => none

namespace FreeRoam

/-- The session state of the free-roam source variant
(`src/unnamed/part_000`): state enum, mistake count, remaining time,
hidden path, player position, and the session start time (ms).  The
purely visual error-flash flag is presentation and is not modelled. -/
structure Game : Type where
  gameState : GState
  mistakes : Nat
  timeLeft : ℚ
  path : List Cell
  playerPos : Cell
  startTime : ℚ

/-- `handleKeyDown` of the free-roam variant: while playing, decode the
key; an in-bounds candidate is always moved to; landing off the path
counts a mistake and loses the game once `MISTAKES_ALLOWED` is reached. -/
def handleKeyDown (s : Game) (key : String) : Game :=
  if s.gameState ≠ GState.playing then s
  else
    match keyDelta key with
    | none => s
    | some d =>
      let newX := s.playerPos.1 + d.1
      let newY := s.playerPos.2 + d.2
      if isWithinBounds newX newY then
        let s1 := { s with playerPos := (newX, newY) }
        if !isOnPath s.path newX newY then
          let newMistakes := s.mistakes + 1
          if MISTAKES_ALLOWED ≤ newMistakes then
            { s1 with mistakes := newMistakes, gameState := GState.lost }
          else
            { s1 with mistakes := newMistakes }
        else
          s1
      else
        s

/-- `checkWinCondition`: if the path has a last cell and the player is on
it, the game is won (the render-delay `setTimeout` around `setGameState`
is not a correctness concern and is not modelled).  An empty path makes
this a no-op (`if (!endPoint) return`). -/
def checkWinCondition (s : Game) : Game :=
  match s.path.getLast? with
  | none => s
  | some endPoint =>
    if s.playerPos = endPoint then { s with gameState := GState.won } else s

/-- `startGame`: generate a fresh path, place the player on its first
cell, reset mistakes and timer, and enter `playing`.  The source reads
`newPath[0]`; `headI` is that read (the path is proved non-empty). -/
def startGame (dirs : Nat → List (Int × Int)) (now : ℚ) : Game :=
  let newPath := (generatePath GRID_SIZE none dirs).getD []
  { gameState := GState.playing
    mistakes := 0
    timeLeft := TIME_LIMIT
    path := newPath
    playerPos := newPath.headI
    startTime := now }

/-- The per-frame `updateGame` body: recompute the remaining time from
the clock and lose when it reaches zero.  The surrounding effect only
runs it while playing. -/
def updateGame (s : Game) (now : ℚ) : Game :=
  if s.gameState ≠ GState.playing then s
  else
    let elapsed := (now - s.startTime) / 1000
    let newTimeLeft := max 0 (TIME_LIMIT - elapsed)
    if newTimeLeft ≤ 0 then
      { s with timeLeft := newTimeLeft, gameState := GState.lost }
    else
      { s with timeLeft := newTimeLeft }

end FreeRoam

namespace Recovery

/-- The session state of the off-path recovery source variant
(`src/path-finding-game.tsx`): additionally tracks the last valid path
position and whether the player is currently on a valid path square. -/
structure Game : Type where
  gameState : GState
  mistakes : Nat
  timeLeft : ℚ
  path : List Cell
  playerPos : Cell
  lastValidPos : Cell
  isOnValidPath : Bool
  startTime : ℚ

/-- `isLastValidPosition(x, y)`. -/
def isLastValidPosition (s : Game) (x y : Int) : Bool :=
  x == s.lastValidPos.1 && y == s.lastValidPos.2

/-- `handleKeyDown` of the recovery variant: while playing and in
bounds, an off-path player may only return to the last valid position;
an on-path player moves freely, with off-path destinations counted as
mistakes (losing at `MISTAKES_ALLOWED`). -/
def handleKeyDown (s : Game) (key : String) : Game :=
  if s.gameState ≠ GState.playing then s
  else
    match keyDelta key with
    | none => s
    | some d =>
      let newX := s.playerPos.1 + d.1
      let newY := s.playerPos.2 + d.2
      if isWithinBounds newX newY then
        if !s.isOnValidPath then
          if isLastValidPosition s newX newY then
            { s with playerPos := (newX, newY), isOnValidPath := true }
          else
            s
        else
          if isOnPath s.path newX newY then
            { s with playerPos := (newX, newY), lastValidPos := (newX, newY) }
          else
            let newMistakes := s.mistakes + 1
            if MISTAKES_ALLOWED ≤ newMistakes then
              { s with playerPos := (newX, newY), isOnValidPath := false, mistakes := newMistakes, gameState := GState.lost }
            else
              { s with playerPos := (newX, newY), isOnValidPath := false, mistakes := newMistakes }
      else
        s

/-- `checkWinCondition`, identical to the free-roam variant's. -/
def checkWinCondition (s : Game) : Game :=
  match s.path.getLast? with
  | none => s
  | some endPoint =>
    if s.playerPos = endPoint then { s with gameState := GState.won } else s

/-- `startGame` of the recovery variant: the generated path uses the
horizontal-deviation bound, and the start cell is also recorded as the
last valid position, with the player marked on-path. -/
def startGame (dirs : Nat → List (Int × Int)) (now : ℚ) : Game :=
  let newPath := (generatePath GRID_SIZE (some MAX_HORIZONTAL_DEVIATION) dirs).getD []
  let startPos := newPath.headI
  { gameState := GState.playing
    mistakes := 0
    timeLeft := TIME_LIMIT
    path := newPath
    playerPos := startPos
    lastValidPos := startPos
    isOnValidPath := true
    startTime := now }

/-- The per-frame `updateGame` body, identical to the free-roam
variant's. -/
def updateGame (s : Game) (now : ℚ) : Game :=
  if s.gameState ≠ GState.playing then s
  else
    let elapsed := (now - s.startTime) / 1000
    let newTimeLeft := max 0 (TIME_LIMIT - elapsed)
    if newTimeLeft ≤ 0 then
      { s with timeLeft := newTimeLeft, gameState := GState.lost }
    else
      { s with timeLeft := newTimeLeft }

end Recovery

/-- The safety invariant of the recovery variant: the recorded last
valid position is a cell of the current path, and while the player is
marked on-path their position is a cell of the current path. -/
def RecInv (s : Recovery.Game) : Prop :=
  s.lastValidPos ∈ s.path ∧ (s.isOnValidPath = true → s.playerPos ∈ s.path)

/-- A concrete free-roam session used to instantiate theorems: playing,
two mistakes already made, player at (1, 1) next to the single-cell path
[(0, 0)]. -/
def sampleFree : FreeRoam.Game :=
  { gameState := GState.playing
    mistakes := 2
    timeLeft := TIME_LIMIT
    path := [(0, 0)]
    playerPos := (1, 1)
    startTime := 0 }

/-- A concrete recovery session: playing, on-path flag set, player at
(1, 1), path [(0, 0)]. -/
def sampleRec : Recovery.Game :=
  { gameState := GState.playing
    mistakes := 2
    timeLeft := TIME_LIMIT
    path := [(0, 0)]
    playerPos := (1, 1)
    lastValidPos := (0, 0)
    isOnValidPath := true
    startTime := 0 }

/-- A concrete recovery session with the player off-path at (1, 1), last
valid position (1, 0). -/
def sampleRecOff : Recovery.Game :=
  { gameState := GState.playing
    mistakes := 1
    timeLeft := TIME_LIMIT
    path := [(1, 0)]
    playerPos := (1, 1)
    lastValidPos := (1, 0)
    isOnValidPath := false
    startTime := 0 }

/-- A concrete recovery session satisfying the `RecInv` invariant:
player on-path at (1, 1) on the two-cell path [(1, 1), (1, 0)]. -/
def sampleRecOn : Recovery.Game :=
  { gameState := GState.playing
    mistakes := 0
    timeLeft := TIME_LIMIT
    path := [(1, 1), (1, 0)]
    playerPos := (1, 1)
    lastValidPos := (1, 1)
    isOnValidPath := true
    startTime := 0 }

/-! ## Basic lemmas about the cell-membership tests -/

theorem any_cell_iff (l : List Cell) (x y : Int) :
    (l.any fun c => c.1 == x && c.2 == y) = true ↔ (x, y) ∈ l := by
  rw [List.any_eq_true]
  constructor
  · rintro ⟨c, hc, hb⟩
    rw [Bool.and_eq_true, beq_iff_eq, beq_iff_eq] at hb
    obtain ⟨h1, h2⟩ := hb
    have : c = (x, y) := by
      cases c; simp_all
    rwa [this] at hc
  · intro h
    exact ⟨(x, y), h, by simp⟩

theorem hasPoint_iff (path : List Cell) (a b : Int) :
    hasPoint path a b = true ↔ (a, b) ∈ path :=
  any_cell_iff path a b

theorem isValidMove_iff (gridSize : Int) (path : List Cell) (x y : Int) :
    isValidMove gridSize path x y = true ↔
      0 ≤ x ∧ x < gridSize ∧ 0 ≤ y ∧ y < gridSize ∧ (x, y) ∉ path := by
  rw [isValidMove]
  simp only [Bool.and_eq_true, Bool.not_eq_true', decide_eq_true_eq]
  rw [← Bool.not_eq_true, any_cell_iff]
  tauto

theorem formsSquare_iff (path : List Cell) (x y : Int) :
    formsSquare path x y = true ↔
      ((x - 1, y) ∈ path ∧ (x, y - 1) ∈ path ∧ (x - 1, y - 1) ∈ path) ∨
      ((x + 1, y) ∈ path ∧ (x, y - 1) ∈ path ∧ (x + 1, y - 1) ∈ path) ∨
      ((x - 1, y) ∈ path ∧ (x, y + 1) ∈ path ∧ (x - 1, y + 1) ∈ path) ∨
      ((x + 1, y) ∈ path ∧ (x, y + 1) ∈ path ∧ (x + 1, y + 1) ∈ path) := by
  rw [formsSquare]
  simp only [Bool.or_eq_true, Bool.and_eq_true, hasPoint_iff]
  tauto

theorem devOk_some_iff (startX maxDev nx : Int) :
    devOk startX (some maxDev) nx = true ↔ |nx - startX| ≤ maxDev := by
  simp [devOk]

/-! ## The no-2×2-block property -/

theorem noSquare_cons (path : List Cell) (x y : Int)
    (hns : NoSquare path) (hfs : formsSquare path x y = false) :
    NoSquare ((x, y) :: path) := by
  have hf : ¬ formsSquare path x y = true := by simp [hfs]
  intro a b h
  obtain ⟨h1, h2, h3, h4⟩ := h
  by_cases e1 : ((a, b) : Cell) = (x, y)
  · -- the new cell is the bottom-left corner: config 4 of formsSquare
    rw [Prod.mk.injEq] at e1
    obtain ⟨rfl, rfl⟩ := e1
    have m2 : ((a + 1 : Int), b) ∈ path := by
      rcases List.mem_cons.mp h2 with h | h
      · rw [Prod.mk.injEq] at h; omega
      · exact h
    have m3 : ((a : Int), b + 1) ∈ path := by
      rcases List.mem_cons.mp h3 with h | h
      · rw [Prod.mk.injEq] at h; omega
      · exact h
    have m4 : ((a + 1 : Int), b + 1) ∈ path := by
      rcases List.mem_cons.mp h4 with h | h
      · rw [Prod.mk.injEq] at h; omega
      · exact h
    exact hf (by rw [formsSquare_iff]; exact Or.inr (Or.inr (Or.inr ⟨m2, m3, m4⟩)))
  · have m1 : ((a : Int), b) ∈ path := by
      rcases List.mem_cons.mp h1 with h | h
      · exact absurd h e1
      · exact h
    by_cases e2 : ((a + 1, b) : Cell) = (x, y)
    · -- the new cell is the bottom-right corner: config 3 of formsSquare
      rw [Prod.mk.injEq] at e2
      obtain ⟨hx, hy⟩ := e2
      have n1 : ((x - 1 : Int), y) ∈ path := by
        have e : ((x - 1 : Int), y) = ((a : Int), b) := by rw [Prod.mk.injEq]; omega
        rw [e]; exact m1
      have n2 : ((x : Int), y + 1) ∈ path := by
        rcases List.mem_cons.mp h4 with h | h
        · rw [Prod.mk.injEq] at h; omega
        · have e : ((x : Int), y + 1) = ((a + 1 : Int), b + 1) := by rw [Prod.mk.injEq]; omega
          rw [e]; exact h
      have n3 : ((x - 1 : Int), y + 1) ∈ path := by
        rcases List.mem_cons.mp h3 with h | h
        · rw [Prod.mk.injEq] at h; omega
        · have e : ((x - 1 : Int), y + 1) = ((a : Int), b + 1) := by rw [Prod.mk.injEq]; omega
          rw [e]; exact h
      exact hf (by rw [formsSquare_iff]; exact Or.inr (Or.inr (Or.inl ⟨n1, n2, n3⟩)))
    · have m2 : ((a + 1 : Int), b) ∈ path := by
        rcases List.mem_cons.mp h2 with h | h
        · exact absurd h e2
        · exact h
      by_cases e3 : ((a, b + 1) : Cell) = (x, y)
      · -- the new cell is the top-left corner: config 2 of formsSquare
        rw [Prod.mk.injEq] at e3
        obtain ⟨hx, hy⟩ := e3
        have n1 : ((x + 1 : Int), y) ∈ path := by
          rcases List.mem_cons.mp h4 with h | h
          · rw [Prod.mk.injEq] at h; omega
          · have e : ((x + 1 : Int), y) = ((a + 1 : Int), b + 1) := by rw [Prod.mk.injEq]; omega
            rw [e]; exact h
        have n2 : ((x : Int), y - 1) ∈ path := by
          have e : ((x : Int), y - 1) = ((a : Int), b) := by rw [Prod.mk.injEq]; omega
          rw [e]; exact m1
        have n3 : ((x + 1 : Int), y - 1) ∈ path := by
          have e : ((x + 1 : Int), y - 1) = ((a + 1 : Int), b) := by rw [Prod.mk.injEq]; omega
          rw [e]; exact m2
        exact hf (by rw [formsSquare_iff]; exact Or.inr (Or.inl ⟨n1, n2, n3⟩))
      · have m3 : ((a : Int), b + 1) ∈ path := by
          rcases List.mem_cons.mp h3 with h | h
          · exact absurd h e3
          · exact h
        by_cases e4 : ((a + 1, b + 1) : Cell) = (x, y)
        · -- the new cell is the top-right corner: config 1 of formsSquare
          rw [Prod.mk.injEq] at e4
          obtain ⟨hx, hy⟩ := e4
          have n1 : ((x - 1 : Int), y) ∈ path := by
            have e : ((x - 1 : Int), y) = ((a : Int), b + 1) := by rw [Prod.mk.injEq]; omega
            rw [e]; exact m3
          have n2 : ((x : Int), y - 1) ∈ path := by
            have e : ((x : Int), y - 1) = ((a + 1 : Int), b) := by rw [Prod.mk.injEq]; omega
            rw [e]; exact m2
          have n3 : ((x - 1 : Int), y - 1) ∈ path := by
            have e : ((x - 1 : Int), y - 1) = ((a : Int), b) := by rw [Prod.mk.injEq]; omega
            rw [e]; exact m1
          exact hf (by rw [formsSquare_iff]; exact Or.inl ⟨n1, n2, n3⟩)
        · have m4 : ((a + 1 : Int), b + 1) ∈ path := by
            rcases List.mem_cons.mp h4 with h | h
            · exact absurd h e4
            · exact h
          exact hns a b ⟨m1, m2, m3, m4⟩

/-- Because rows are non-increasing along the walk, every cell already
in the path has row ≥ the current row `y`; hence moving up to row `y - 1`
can never complete a 2×2 block.  This is why the deviation-limited
variant's forced-up fallback preserves the no-square invariant even
though the source does not re-check `formsSquare` there. -/
theorem formsSquare_up_false (path : List Cell) (x y : Int)
    (hlb : ∀ c ∈ path, y ≤ c.2) :
    formsSquare path x (y - 1) = false := by
  rw [Bool.eq_false_iff]
  intro h
  rw [formsSquare_iff] at h
  rcases h with ⟨h1, _, _⟩ | ⟨h1, _, _⟩ | ⟨h1, _, _⟩ | ⟨h1, _, _⟩ <;>
    · have := hlb _ h1
      simp only at this
      omega

/-! ## Specification of the inner candidate loop -/

theorem findMove_some (gridSize startX : Int) (cfg : Option Int) (path : List Cell)
    (x y : Int) (l : List (Int × Int)) (c : Cell)
    (h : findMove gridSize startX cfg path x y l = some c) :
    ∃ d ∈ l, c = (x + d.1, y + d.2) ∧ isValidMove gridSize path c.1 c.2 = true ∧
      formsSquare path c.1 c.2 = false ∧ devOk startX cfg c.1 = true := by
  induction l with
  | nil => simp [findMove] at h
  | cons d rest ih =>
    rw [findMove] at h
    by_cases hc : (isValidMove gridSize path (x + d.1) (y + d.2) &&
        !formsSquare path (x + d.1) (y + d.2) && devOk startX cfg (x + d.1)) = true
    · rw [if_pos hc] at h
      obtain rfl : c = (x + d.1, y + d.2) := (Option.some.inj h).symm
      rw [Bool.and_eq_true, Bool.and_eq_true, Bool.not_eq_true'] at hc
      exact ⟨d, List.mem_cons_self d rest, rfl, hc.1.1, hc.1.2, hc.2⟩
    · rw [if_neg hc] at h
      obtain ⟨d', hd', hprop⟩ := ih h
      exact ⟨d', List.mem_cons_of_mem d hd', hprop⟩

/-! ## Termination bound: a duplicate-free in-bounds path fits in the grid -/

theorem length_le_sq (g : Int) (path : List Cell) (hnd : path.Nodup)
    (hb : ∀ c ∈ path, 0 ≤ c.1 ∧ c.1 < g ∧ 0 ≤ c.2 ∧ c.2 < g) :
    path.length ≤ g.toNat * g.toNat := by
  classical
  have hsub : path.toFinset ⊆ Finset.Ico 0 g ×ˢ Finset.Ico 0 g := by
    intro c hc
    rw [List.mem_toFinset] at hc
    obtain ⟨hb1, hb2, hb3, hb4⟩ := hb c hc
    rw [Finset.mem_product, Finset.mem_Ico, Finset.mem_Ico]
    exact ⟨⟨hb1, hb2⟩, hb3, hb4⟩
  have hcard := Finset.card_le_card hsub
  rw [List.toFinset_card_of_nodup hnd] at hcard
  rwa [Finset.card_product, Int.card_Ico, sub_zero] at hcard

/-! ## The generation-loop invariant -/

theorem getLast?_cons_of_ne_nil {α : Type} (c : α) {l : List α} (h : l ≠ []) :
    (c :: l).getLast? = l.getLast? := by
  cases l with
  | nil => exact absurd rfl h
  | cons b t => rw [List.getLast?_cons_cons]

theorem GenInv.ne_nil {g sX : Int} {cfg : Option Int} {x y : Int} {path : List Cell}
    (hinv : GenInv g sX cfg x y path) : path ≠ [] := by
  intro he
  rw [he] at hinv
  exact Option.noConfusion hinv.head_eq

theorem GenInv.cur_mem {g sX : Int} {cfg : Option Int} {x y : Int} {path : List Cell}
    (hinv : GenInv g sX cfg x y path) : (x, y) ∈ path :=
  List.mem_of_mem_head? (Option.mem_def.mpr hinv.head_eq)

/-- Extending the path by one accepted cell preserves the invariant. -/
theorem GenInv.step {g sX : Int} {cfg : Option Int} {x y : Int} {path : List Cell}
    (hinv : GenInv g sX cfg x y path) (nx ny : Int)
    (hvalid : isValidMove g path nx ny = true)
    (hfs : formsSquare path nx ny = false)
    (hdev : ∀ m, cfg = some m → |nx - sX| ≤ m)
    (hadj : (nx - x).natAbs + (ny - y).natAbs = 1)
    (hrow : ny ≤ y) :
    GenInv g sX cfg nx ny ((nx, ny) :: path) := by
  rw [isValidMove_iff] at hvalid
  obtain ⟨hb1, hb2, hb3, hb4, hfresh⟩ := hvalid
  refine ⟨rfl, ?_, ?_, ?_, ?_, ?_, ?_, ?_, ?_⟩
  · rw [getLast?_cons_of_ne_nil _ hinv.ne_nil]
    exact hinv.last_eq
  · exact List.nodup_cons.mpr ⟨hfresh, hinv.nodup⟩
  · intro c hc
    rcases List.mem_cons.mp hc with rfl | hc
    · exact ⟨hb1, hb2, hb3, hb4⟩
    · exact hinv.bounds c hc
  · intro c hc
    rcases List.mem_cons.mp hc with rfl | hc
    · exact le_refl _
    · exact le_trans hrow (hinv.row_lb c hc)
  · exact noSquare_cons path nx ny hinv.no_square hfs
  · intro m hm c hc
    rcases List.mem_cons.mp hc with rfl | hc
    · exact hdev m hm
    · exact hinv.dev m hm c hc
  · rw [List.chain'_cons']
    refine ⟨?_, hinv.adj⟩
    intro b hb
    rw [hinv.head_eq, Option.mem_some_iff] at hb
    subst hb
    exact hadj
  · rw [List.chain'_cons']
    refine ⟨?_, hinv.rows⟩
    intro b hb
    rw [hinv.head_eq, Option.mem_some_iff] at hb
    subst hb
    exact hrow

/-! ## The master lemma: the loop never exhausts its fuel and preserves
the invariant -/

theorem mem_directions_cases {d : Int × Int} (h : d ∈ directions) :
    d = ((0 : Int), (-1 : Int)) ∨ d = ((-1 : Int), (0 : Int)) ∨ d = ((1 : Int), (0 : Int)) := by
  simpa [directions] using h

theorem genAux_succ (g sX : Int) (cfg : Option Int) (dirs : Nat → List (Int × Int))
    (fuel k : Nat) (x y : Int) (path : List Cell) :
    genAux g sX cfg dirs (fuel + 1) k x y path =
      if 0 < y then
        match findMove g sX cfg path x y (dirs k) with
        | some c => genAux g sX cfg dirs fuel (k + 1) c.1 c.2 (c :: path)
        | none =>
          match cfg with
          | none => some path
          | some _ =>
            if isValidMove g path x (y - 1) then
              genAux g sX cfg dirs fuel (k + 1) x (y - 1) ((x, y - 1) :: path)
            else
              some path
      else
        some path := rfl

theorem genAux_some (g sX : Int) (cfg : Option Int) (dirs : Nat → List (Int × Int))
    (hd : ∀ k, dirs k ⊆ directions) :
    ∀ fuel k x y path, GenInv g sX cfg x y path →
      g.toNat * g.toNat < fuel + path.length →
      ∃ q, genAux g sX cfg dirs fuel k x y path = some q ∧
        ∃ x' y', GenInv g sX cfg x' y' q := by
  intro fuel
  induction fuel with
  | zero =>
    intro k x y path hinv hlen
    exact absurd (length_le_sq g path hinv.nodup hinv.bounds) (by omega)
  | succ fuel ih =>
    intro k x y path hinv hlen
    rw [genAux_succ]
    by_cases hy : 0 < y
    · rw [if_pos hy]
      cases hfm : findMove g sX cfg path x y (dirs k) with
      | some c =>
        obtain ⟨d, hdmem, hc, hvalid, hfs, hdok⟩ :=
          findMove_some g sX cfg path x y (dirs k) c hfm
        have hd3 := mem_directions_cases (hd k hdmem)
        have hadj : (c.1 - x).natAbs + (c.2 - y).natAbs = 1 := by
          rcases hd3 with rfl | rfl | rfl <;> rw [hc] <;> simp
        have hrow : c.2 ≤ y := by
          rcases hd3 with rfl | rfl | rfl <;> rw [hc] <;> simp
        have hdev : ∀ m, cfg = some m → |c.1 - sX| ≤ m := by
          intro m hm
          rw [hm] at hdok
          exact (devOk_some_iff sX m c.1).mp hdok
        have hstep := hinv.step c.1 c.2 hvalid hfs hdev hadj hrow
        obtain ⟨q, hq, hinv'⟩ := ih (k + 1) c.1 c.2 (c :: path) hstep
          (by rw [List.length_cons]; omega)
        exact ⟨q, hq, hinv'⟩
      | none =>
        cases cfg with
        | none => exact ⟨path, rfl, x, y, hinv⟩
        | some m =>
          by_cases hv : isValidMove g path x (y - 1) = true
          · rw [if_pos hv]
            have hfs := formsSquare_up_false path x y hinv.row_lb
            have hdev : ∀ m', some m = some m' → |x - sX| ≤ m' := by
              intro m' hm'
              exact hinv.dev m' hm' (x, y) hinv.cur_mem
            have hadj : (x - x).natAbs + (y - 1 - y).natAbs = 1 := by omega
            have hrow : y - 1 ≤ y := by omega
            have hstep := hinv.step x (y - 1) hv hfs hdev hadj hrow
            obtain ⟨q, hq, hinv'⟩ := ih (k + 1) x (y - 1) ((x, y - 1) :: path) hstep
              (by rw [List.length_cons]; omega)
            exact ⟨q, hq, hinv'⟩
          · rw [if_neg hv]
            exact ⟨path, rfl, x, y, hinv⟩
    · rw [if_neg hy]
      exact ⟨path, rfl, x, y, hinv⟩

/-- The invariant holds at the loop entry. -/
theorem genInv_init (g : Int) (cfg : Option Int) (hg : 2 ≤ g)
    (hm : ∀ m, cfg = some m → 0 ≤ m) :
    GenInv g (g / 2) cfg (g / 2) (g - 1) [(g / 2, g - 1)] := by
  refine ⟨rfl, rfl, List.nodup_singleton _, ?_, ?_, ?_, ?_, ?_, ?_⟩
  · intro c hc
    rw [List.mem_singleton] at hc
    subst hc
    refine ⟨by omega, by omega, by omega, by omega⟩
  · intro c hc
    rw [List.mem_singleton] at hc
    subst hc
    exact le_refl _
  · intro a b h
    obtain ⟨h1, h2, _, _⟩ := h
    rw [List.mem_singleton, Prod.mk.injEq] at h1 h2
    omega
  · intro m hm' c hc
    rw [List.mem_singleton] at hc
    subst hc
    simpa using hm m hm'
  · exact List.chain'_singleton _
  · exact List.chain'_singleton _

/-- The generator always terminates with a path satisfying the final form
of the loop invariant (stated on the reversed, i.e. returned, path). -/
theorem generatePath_spec (g : Int) (cfg : Option Int) (dirs : Nat → List (Int × Int))
    (hg : 2 ≤ g) (hm : ∀ m, cfg = some m → 0 ≤ m) (hd : ∀ k, dirs k ⊆ directions) :
    ∃ q, generatePath g cfg dirs = some q.reverse ∧
      ∃ x' y', GenInv g (g / 2) cfg x' y' q := by
  obtain ⟨q, hq, hinv⟩ := genAux_some g (g / 2) cfg dirs hd
    (g.toNat * g.toNat + 1) 0 (g / 2) (g - 1) [(g / 2, g - 1)]
    (genInv_init g cfg hg hm) (by rw [List.length_singleton]; omega)
  refine ⟨q, ?_, hinv⟩
  rw [generatePath]
  rw [hq]
  rfl

/-! ## Transfer lemmas from the internal (reversed) path to the returned one -/

theorem Adjacent.symm {a b : Cell} (h : Adjacent a b) : Adjacent b a := by
  unfold Adjacent at h
  unfold Adjacent
  omega

theorem noSquare_reverse {l : List Cell} (h : NoSquare l) : NoSquare l.reverse := by
  intro a b hm
  obtain ⟨h1, h2, h3, h4⟩ := hm
  rw [List.mem_reverse] at h1 h2 h3 h4
  exact h a b ⟨h1, h2, h3, h4⟩

/-! ## Claims about the path generator -/

/-- C1: For every grid size ≥ 2, `generatePath` returns a non-empty path
whose first cell is `(⌊size/2⌋, size − 1)` and in which no two cells are
equal, in both the base variant (`cfg = none`) and the deviation-limited
variant (`cfg = some maxDev`). -/
theorem generatePath_start_nodup (gridSize : Int) (cfg : Option Int)
    (dirs : Nat → List (Int × Int)) (hg : 2 ≤ gridSize)
    (hm : ∀ m, cfg = some m → 0 ≤ m) (hd : ∀ k, dirs k ⊆ directions) :
    ∃ p, generatePath gridSize cfg dirs = some p ∧ p ≠ [] ∧
      p.head? = some (gridSize / 2, gridSize - 1) ∧ p.Nodup := by
  obtain ⟨q, hq, x', y', hinv⟩ := generatePath_spec gridSize cfg dirs hg hm hd
  refine ⟨q.reverse, hq, ?_, ?_, ?_⟩
  · intro h
    exact hinv.ne_nil (List.reverse_eq_nil_iff.mp h)
  · rw [List.head?_reverse]
    exact hinv.last_eq
  · exact List.nodup_reverse.mpr hinv.nodup

theorem generatePath_start_nodup_witness :
    generatePath 3 none (fun _ => directions) = some [(1, 2), (1, 1), (1, 0)] ∧
    ([(1, 2), (1, 1), (1, 0)] : List Cell).head? = some (3 / 2, 3 - 1) ∧
    ([(1, 2), (1, 1), (1, 0)] : List Cell).Nodup := by
  obtain ⟨p, hp, hne, hh, hnd⟩ := generatePath_start_nodup 3 none (fun _ => directions)
    (by decide) (fun m h => Option.noConfusion h) (fun _ => List.Subset.refl _)
  have he : p = [(1, 2), (1, 1), (1, 0)] := Option.some.inj (hp.symm.trans (by rfl))
  subst he
  exact ⟨hp, hh, hnd⟩

/-- C2: Every pair of consecutive cells of a generated path is 4-adjacent
(Manhattan distance exactly 1), and no 2×2 block of four grid cells is
fully contained in the path's cell set — in both variants, including
paths extended by the deviation-limited variant's forced-up fallback
(the quantification over `dirs` includes streams that make the inner
loop fail, forcing the fallback). -/
theorem generatePath_adjacent_no_square (gridSize : Int) (cfg : Option Int)
    (dirs : Nat → List (Int × Int)) (hg : 2 ≤ gridSize)
    (hm : ∀ m, cfg = some m → 0 ≤ m) (hd : ∀ k, dirs k ⊆ directions)
    (p : List Cell) (hp : generatePath gridSize cfg dirs = some p) :
    p.Chain' Adjacent ∧ NoSquare p := by
  obtain ⟨q, hq, x', y', hinv⟩ := generatePath_spec gridSize cfg dirs hg hm hd
  obtain rfl : p = q.reverse := Option.some.inj (hp.symm.trans hq)
  constructor
  · rw [List.chain'_reverse]
    exact hinv.adj.imp fun a b h => h.symm
  · exact noSquare_reverse hinv.no_square

theorem generatePath_adjacent_no_square_witness :
    generatePath 3 (some 4) (fun _ => []) = some [(1, 2), (1, 1), (1, 0)] ∧
    ([(1, 2), (1, 1), (1, 0)] : List Cell).Chain' Adjacent ∧
    NoSquare [(1, 2), (1, 1), (1, 0)] :=
  have h := generatePath_adjacent_no_square 3 (some 4) (fun _ => []) (by decide)
    (fun m hm => by cases hm; decide) (fun _ => List.nil_subset _)
    [(1, 2), (1, 1), (1, 0)] (by rfl)
  ⟨by rfl, h.1, h.2⟩

/-- C3: `generatePath` always terminates (the fuel is never exhausted,
for every stream of shuffled direction lists), and the row coordinate is
non-increasing along the generated path. -/
theorem generatePath_terminates_row_mono (gridSize : Int) (cfg : Option Int)
    (dirs : Nat → List (Int × Int)) (hg : 2 ≤ gridSize)
    (hm : ∀ m, cfg = some m → 0 ≤ m) (hp : ∀ k, (dirs k).Perm directions) :
    ∃ p, generatePath gridSize cfg dirs = some p ∧
      p.Chain' fun a b => b.2 ≤ a.2 := by
  have hd : ∀ k, dirs k ⊆ directions := fun k => (hp k).subset
  obtain ⟨q, hq, x', y', hinv⟩ := generatePath_spec gridSize cfg dirs hg hm hd
  refine ⟨q.reverse, hq, ?_⟩
  rw [List.chain'_reverse]
  exact hinv.rows.imp fun a b h => h

theorem generatePath_terminates_row_mono_witness :
    generatePath 3 none (fun _ => directions) ≠ none := by
  obtain ⟨p, hp, _⟩ := generatePath_terminates_row_mono 3 none (fun _ => directions)
    (by decide) (fun m h => Option.noConfusion h) (fun _ => List.Perm.refl _)
  rw [hp]
  exact fun h => Option.noConfusion h

/-- C4: In the deviation-limited variant at the source constants
(`GRID_SIZE = 35`, `MAX_HORIZONTAL_DEVIATION = 4`), every cell `c` of a
path returned by `generatePath` satisfies
`|c.x − startX| ≤ MAX_HORIZONTAL_DEVIATION` with `startX = ⌊GRID_SIZE/2⌋`
— including cells added by the forced-up fallback (which keeps the
column unchanged). -/
theorem generatePath_deviation_le (dirs : Nat → List (Int × Int))
    (hd : ∀ k, dirs k ⊆ directions) (p : List Cell)
    (hp : generatePath GRID_SIZE (some MAX_HORIZONTAL_DEVIATION) dirs = some p) :
    ∀ c ∈ p, |c.1 - GRID_SIZE / 2| ≤ MAX_HORIZONTAL_DEVIATION := by
  obtain ⟨q, hq, x', y', hinv⟩ := generatePath_spec GRID_SIZE
    (some MAX_HORIZONTAL_DEVIATION) dirs (by decide) (fun m h => by cases h; decide) hd
  obtain rfl : p = q.reverse := Option.some.inj (hp.symm.trans hq)
  intro c hc
  rw [List.mem_reverse] at hc
  exact hinv.dev MAX_HORIZONTAL_DEVIATION rfl c hc

theorem generatePath_deviation_le_witness :
    |(17 : Int) - GRID_SIZE / 2| ≤ MAX_HORIZONTAL_DEVIATION :=
  generatePath_deviation_le (fun _ => directions) (fun _ => List.Subset.refl _)
    [(17, 34), (17, 33), (17, 32), (17, 31), (17, 30), (17, 29), (17, 28), (17, 27), (17, 26), (17, 25), (17, 24), (17, 23), (17, 22), (17, 21), (17, 20), (17, 19), (17, 18), (17, 17), (17, 16), (17, 15), (17, 14), (17, 13), (17, 12), (17, 11), (17, 10), (17, 9), (17, 8), (17, 7), (17, 6), (17, 5), (17, 4), (17, 3), (17, 2), (17, 1), (17, 0)] (by rfl) (17, 34) (by decide)

/-! ## Claims about the game session -/

theorem isOnPath_iff (path : List Cell) (x y : Int) :
    isOnPath path x y = true ↔ (x, y) ∈ path :=
  any_cell_iff path x y

theorem isLastValidPosition_iff (s : Recovery.Game) (x y : Int) :
    Recovery.isLastValidPosition s x y = true ↔ (x, y) = s.lastValidPos := by
  rw [Recovery.isLastValidPosition, Bool.and_eq_true, beq_iff_eq, beq_iff_eq, Prod.ext_iff]

/-- C5: In the free-roam variant, an in-bounds directional input whose
candidate cell is not on the path, given while playing, moves the player
to the candidate, increments the mistake count by exactly one, and (in
the recovery variant, when the player was on-path) marks the player
off-path; in both variants the session becomes `lost` on that same input
exactly when the new mistake count reaches `MISTAKES_ALLOWED`. -/
theorem offPath_move_counts_mistake
    (sF : FreeRoam.Game) (keyF : String) (dF : Int × Int)
    (sR : Recovery.Game) (keyR : String) (dR : Int × Int)
    (hkF : keyDelta keyF = some dF)
    (hFplay : sF.gameState = GState.playing)
    (hFin : isWithinBounds (sF.playerPos.1 + dF.1) (sF.playerPos.2 + dF.2) = true)
    (hFoff : isOnPath sF.path (sF.playerPos.1 + dF.1) (sF.playerPos.2 + dF.2) = false)
    (hkR : keyDelta keyR = some dR)
    (hRplay : sR.gameState = GState.playing)
    (hRon : sR.isOnValidPath = true)
    (hRin : isWithinBounds (sR.playerPos.1 + dR.1) (sR.playerPos.2 + dR.2) = true)
    (hRoff : isOnPath sR.path (sR.playerPos.1 + dR.1) (sR.playerPos.2 + dR.2) = false) :
    ((FreeRoam.handleKeyDown sF keyF).playerPos
        = (sF.playerPos.1 + dF.1, sF.playerPos.2 + dF.2) ∧
      (FreeRoam.handleKeyDown sF keyF).mistakes = sF.mistakes + 1 ∧
      (FreeRoam.handleKeyDown sF keyF).gameState =
        (if MISTAKES_ALLOWED ≤ sF.mistakes + 1 then GState.lost else GState.playing)) ∧
    ((Recovery.handleKeyDown sR keyR).playerPos
        = (sR.playerPos.1 + dR.1, sR.playerPos.2 + dR.2) ∧
      (Recovery.handleKeyDown sR keyR).mistakes = sR.mistakes + 1 ∧
      (Recovery.handleKeyDown sR keyR).isOnValidPath = false ∧
      (Recovery.handleKeyDown sR keyR).gameState =
        (if MISTAKES_ALLOWED ≤ sR.mistakes + 1 then GState.lost else GState.playing)) := by
  constructor
  · by_cases hM : MISTAKES_ALLOWED ≤ sF.mistakes + 1 <;>
      simp [FreeRoam.handleKeyDown, hkF, hFplay, hFin, hFoff, hM]
  · by_cases hM : MISTAKES_ALLOWED ≤ sR.mistakes + 1 <;>
      simp [Recovery.handleKeyDown, hkR, hRplay, hRon, hRin, hRoff, hM]

theorem offPath_move_counts_mistake_witness :
    (FreeRoam.handleKeyDown sampleFree "w").playerPos = (1, 0) ∧
    (FreeRoam.handleKeyDown sampleFree "w").mistakes = 3 ∧
    (FreeRoam.handleKeyDown sampleFree "w").gameState = GState.lost ∧
    (Recovery.handleKeyDown sampleRec "w").playerPos = (1, 0) ∧
    (Recovery.handleKeyDown sampleRec "w").mistakes = 3 ∧
    (Recovery.handleKeyDown sampleRec "w").isOnValidPath = false ∧
    (Recovery.handleKeyDown sampleRec "w").gameState = GState.lost := by
  have h := offPath_move_counts_mistake sampleFree "w" (0, -1) sampleRec "w" (0, -1)
    (by decide) (by decide) (by decide) (by decide)
    (by decide) (by decide) (by decide) (by decide) (by decide)
  refine ⟨h.1.1, h.1.2.1, ?_, h.2.1, h.2.2.1, h.2.2.2.1, ?_⟩
  · rw [h.1.2.2]; decide
  · rw [h.2.2.2.2]; decide

/-- C6: In the off-path recovery variant, once the player is off-path,
an in-bounds directional input whose candidate is not the last known
on-path cell is a no-op (the whole session state is unchanged), while
the input whose candidate equals the last known on-path cell moves the
player there and restores on-path status, changing nothing else. -/
theorem offPath_recovery_moves (s : Recovery.Game) (key : String) (d : Int × Int)
    (hk : keyDelta key = some d)
    (hplay : s.gameState = GState.playing)
    (hoff : s.isOnValidPath = false)
    (hin : isWithinBounds (s.playerPos.1 + d.1) (s.playerPos.2 + d.2) = true) :
    ((s.playerPos.1 + d.1, s.playerPos.2 + d.2) ≠ s.lastValidPos →
      Recovery.handleKeyDown s key = s) ∧
    ((s.playerPos.1 + d.1, s.playerPos.2 + d.2) = s.lastValidPos →
      (Recovery.handleKeyDown s key).playerPos = s.lastValidPos ∧
      (Recovery.handleKeyDown s key).isOnValidPath = true ∧
      (Recovery.handleKeyDown s key).mistakes = s.mistakes ∧
      (Recovery.handleKeyDown s key).gameState = s.gameState ∧
      (Recovery.handleKeyDown s key).lastValidPos = s.lastValidPos ∧
      (Recovery.handleKeyDown s key).path = s.path) := by
  constructor
  · intro hne
    have hlast : Recovery.isLastValidPosition s (s.playerPos.1 + d.1) (s.playerPos.2 + d.2)
        = false := by
      rw [Bool.eq_false_iff]
      intro h
      exact hne ((isLastValidPosition_iff s _ _).mp h)
    simp [Recovery.handleKeyDown, hk, hplay, hoff, hin, hlast]
  · intro heq
    have hlast : Recovery.isLastValidPosition s (s.playerPos.1 + d.1) (s.playerPos.2 + d.2)
        = true := (isLastValidPosition_iff s _ _).mpr heq
    simp [Recovery.handleKeyDown, hk, hplay, hoff, hin, hlast, heq]

theorem offPath_recovery_moves_witness :
    Recovery.handleKeyDown sampleRecOff "s" = sampleRecOff ∧
    (Recovery.handleKeyDown sampleRecOff "w").playerPos = sampleRecOff.lastValidPos ∧
    (Recovery.handleKeyDown sampleRecOff "w").isOnValidPath = true := by
  have hs := offPath_recovery_moves sampleRecOff "s" (0, 1)
    (by decide) (by decide) (by decide) (by decide)
  have hw := offPath_recovery_moves sampleRecOff "w" (0, -1)
    (by decide) (by decide) (by decide) (by decide)
  exact ⟨hs.1 (by decide), (hw.2 (by decide)).1, (hw.2 (by decide)).2.1⟩

/-- C7: For every clock value, if the session is playing and the elapsed
time since session start is at least `TIME_LIMIT`, the next timer tick
transitions the session to `lost`, in both variants, regardless of the
mistake count (which the theorem does not constrain). -/
theorem timeout_transitions_lost (sF : FreeRoam.Game) (sR : Recovery.Game) (nowF nowR : ℚ)
    (hF : sF.gameState = GState.playing)
    (hFe : TIME_LIMIT ≤ (nowF - sF.startTime) / 1000)
    (hR : sR.gameState = GState.playing)
    (hRe : TIME_LIMIT ≤ (nowR - sR.startTime) / 1000) :
    (FreeRoam.updateGame sF nowF).gameState = GState.lost ∧
    (Recovery.updateGame sR nowR).gameState = GState.lost := by
  constructor
  · have hle : max 0 (TIME_LIMIT - (nowF - sF.startTime) / 1000) ≤ 0 :=
      max_le (le_refl 0) (by linarith)
    simp [FreeRoam.updateGame, hF, hle]
  · have hle : max 0 (TIME_LIMIT - (nowR - sR.startTime) / 1000) ≤ 0 :=
      max_le (le_refl 0) (by linarith)
    simp [Recovery.updateGame, hR, hle]

theorem timeout_transitions_lost_witness :
    (FreeRoam.updateGame sampleFree 13000).gameState = GState.lost ∧
    (Recovery.updateGame sampleRec 13000).gameState = GState.lost :=
  timeout_transitions_lost sampleFree sampleRec 13000 13000
    (by decide) (by norm_num [sampleFree, TIME_LIMIT])
    (by decide) (by norm_num [sampleRec, TIME_LIMIT])

/-- C8: The session never enters `playing` with an empty path: after any
`startGame` (in either variant) the path has length ≥ 1, the player
position is defined as its first cell, and the state is `playing`; and
`checkWinCondition` returns without effect when the path is empty, so it
never indexes past the end of the path. -/
theorem startGame_safe (dirsF dirsR : Nat → List (Int × Int)) (nF nR : ℚ)
    (hdF : ∀ k, dirsF k ⊆ directions) (hdR : ∀ k, dirsR k ⊆ directions)
    (sF : FreeRoam.Game) (sR : Recovery.Game)
    (hsF : sF.path = []) (hsR : sR.path = []) :
    1 ≤ (FreeRoam.startGame dirsF nF).path.length ∧
    (FreeRoam.startGame dirsF nF).playerPos = (FreeRoam.startGame dirsF nF).path.headI ∧
    (FreeRoam.startGame dirsF nF).gameState = GState.playing ∧
    1 ≤ (Recovery.startGame dirsR nR).path.length ∧
    (Recovery.startGame dirsR nR).playerPos = (Recovery.startGame dirsR nR).path.headI ∧
    (Recovery.startGame dirsR nR).gameState = GState.playing ∧
    FreeRoam.checkWinCondition sF = sF ∧
    Recovery.checkWinCondition sR = sR := by
  obtain ⟨qF, hqF, xF, yF, invF⟩ := generatePath_spec GRID_SIZE none dirsF (by decide)
    (fun m h => Option.noConfusion h) hdF
  obtain ⟨qR, hqR, xR, yR, invR⟩ := generatePath_spec GRID_SIZE
    (some MAX_HORIZONTAL_DEVIATION) dirsR (by decide) (fun m h => by cases h; decide) hdR
  have hpF : (FreeRoam.startGame dirsF nF).path = qF.reverse := by
    simp [FreeRoam.startGame, hqF]
  have hpR : (Recovery.startGame dirsR nR).path = qR.reverse := by
    simp [Recovery.startGame, hqR]
  refine ⟨?_, rfl, rfl, ?_, rfl, rfl, ?_, ?_⟩
  · rw [hpF]
    exact List.length_pos.mpr fun h => invF.ne_nil (List.reverse_eq_nil_iff.mp h)
  · rw [hpR]
    exact List.length_pos.mpr fun h => invR.ne_nil (List.reverse_eq_nil_iff.mp h)
  · simp [FreeRoam.checkWinCondition, hsF]
  · simp [Recovery.checkWinCondition, hsR]

theorem startGame_safe_witness :
    1 ≤ (FreeRoam.startGame (fun _ => directions) 0).path.length ∧
    1 ≤ (Recovery.startGame (fun _ => directions) 0).path.length ∧
    FreeRoam.checkWinCondition { sampleFree with path := [] }
      = { sampleFree with path := [] } := by
  have h := startGame_safe (fun _ => directions) (fun _ => directions) 0 0
    (fun _ => List.Subset.refl _) (fun _ => List.Subset.refl _)
    { sampleFree with path := [] } { sampleRec with path := [] } rfl rfl
  exact ⟨h.1, h.2.2.2.1, h.2.2.2.2.2.2.1⟩

/-- C9: A directional input whose candidate cell lies outside the grid
bounds is a no-op in both variants: the whole session state is
unchanged (no move, no mistake, no state transition). -/
theorem outOfBounds_noop (sF : FreeRoam.Game) (keyF : String) (dF : Int × Int)
    (sR : Recovery.Game) (keyR : String) (dR : Int × Int)
    (hkF : keyDelta keyF = some dF)
    (hFin : isWithinBounds (sF.playerPos.1 + dF.1) (sF.playerPos.2 + dF.2) = false)
    (hkR : keyDelta keyR = some dR)
    (hRin : isWithinBounds (sR.playerPos.1 + dR.1) (sR.playerPos.2 + dR.2) = false) :
    FreeRoam.handleKeyDown sF keyF = sF ∧ Recovery.handleKeyDown sR keyR = sR := by
  constructor
  · by_cases hplay : sF.gameState = GState.playing <;>
      simp [FreeRoam.handleKeyDown, hkF, hplay, hFin]
  · by_cases hplay : sR.gameState = GState.playing <;>
      simp [Recovery.handleKeyDown, hkR, hplay, hRin]

theorem outOfBounds_noop_witness :
    FreeRoam.handleKeyDown { sampleFree with playerPos := (0, 0) } "a"
        = { sampleFree with playerPos := (0, 0) } ∧
    Recovery.handleKeyDown { sampleRec with playerPos := (0, 0) } "a"
        = { sampleRec with playerPos := (0, 0) } :=
  outOfBounds_noop { sampleFree with playerPos := (0, 0) } "a" (-1, 0)
    { sampleRec with playerPos := (0, 0) } "a" (-1, 0)
    (by decide) (by decide) (by decide) (by decide)

/-- C10: In the off-path recovery variant, the invariant "the last valid
position is a cell of the current path, and whenever the on-path flag is
set the player position is a cell of the current path" is established by
`startGame` (from any prior state — `startGame` overwrites every field)
and preserved by every input and by the timer tick and win check, so it
holds in every reachable session state. -/
theorem recovery_invariant_preserved :
    (∀ dirs now, (∀ k, dirs k ⊆ directions) → RecInv (Recovery.startGame dirs now)) ∧
    (∀ s key, RecInv s → RecInv (Recovery.handleKeyDown s key)) ∧
    (∀ s now, RecInv s → RecInv (Recovery.updateGame s now)) ∧
    (∀ s, RecInv s → RecInv (Recovery.checkWinCondition s)) := by
  refine ⟨?_, ?_, ?_, ?_⟩
  · intro dirs now hd
    obtain ⟨q, hq, x', y', hinv⟩ := generatePath_spec GRID_SIZE
      (some MAX_HORIZONTAL_DEVIATION) dirs (by decide) (fun m h => by cases h; decide) hd
    have hne : q.reverse ≠ [] := fun h => hinv.ne_nil (List.reverse_eq_nil_iff.mp h)
    have hmem : q.reverse.headI ∈ q.reverse := by
      cases hq' : q.reverse with
      | nil => exact absurd hq' hne
      | cons a t => simp
    have hpath : (Recovery.startGame dirs now).path = q.reverse := by
      simp [Recovery.startGame, hq]
    have hpos : (Recovery.startGame dirs now).playerPos = q.reverse.headI := by
      simp [Recovery.startGame, hq]
    have hlv : (Recovery.startGame dirs now).lastValidPos = q.reverse.headI := by
      simp [Recovery.startGame, hq]
    constructor
    · rw [hlv, hpath]; exact hmem
    · intro _
      rw [hpos, hpath]; exact hmem
  · intro s key hs
    obtain ⟨h1, h2⟩ := hs
    by_cases hplay : s.gameState = GState.playing
    case neg =>
      have heq : Recovery.handleKeyDown s key = s := by
        simp [Recovery.handleKeyDown, hplay]
      rw [heq]; exact ⟨h1, h2⟩
    case pos =>
      cases hk : keyDelta key with
      | none =>
        have heq : Recovery.handleKeyDown s key = s := by
          simp [Recovery.handleKeyDown, hplay, hk]
        rw [heq]; exact ⟨h1, h2⟩
      | some d =>
        by_cases hin : isWithinBounds (s.playerPos.1 + d.1) (s.playerPos.2 + d.2) = true
        case neg =>
          have hinf : isWithinBounds (s.playerPos.1 + d.1) (s.playerPos.2 + d.2) = false :=
            Bool.eq_false_iff.mpr hin
          have heq : Recovery.handleKeyDown s key = s := by
            simp [Recovery.handleKeyDown, hplay, hk, hinf]
          rw [heq]; exact ⟨h1, h2⟩
        case pos =>
          by_cases hval : s.isOnValidPath = true
          case pos =>
            by_cases hon : isOnPath s.path (s.playerPos.1 + d.1) (s.playerPos.2 + d.2) = true
            case pos =>
              have hmem := (isOnPath_iff _ _ _).mp hon
              have heq : Recovery.handleKeyDown s key =
                  { s with playerPos := (s.playerPos.1 + d.1, s.playerPos.2 + d.2), lastValidPos := (s.playerPos.1 + d.1, s.playerPos.2 + d.2) } := by
                simp [Recovery.handleKeyDown, hplay, hk, hin, hval, hon]
              rw [heq]
              exact ⟨hmem, fun _ => hmem⟩
            case neg =>
              have honf : isOnPath s.path (s.playerPos.1 + d.1) (s.playerPos.2 + d.2)
                  = false := Bool.eq_false_iff.mpr hon
              by_cases hM : MISTAKES_ALLOWED ≤ s.mistakes + 1
              · have heq : Recovery.handleKeyDown s key =
                    { s with playerPos := (s.playerPos.1 + d.1, s.playerPos.2 + d.2), isOnValidPath := false, mistakes := s.mistakes + 1, gameState := GState.lost } := by
                  simp [Recovery.handleKeyDown, hplay, hk, hin, hval, honf, hM]
                rw [heq]
                exact ⟨h1, fun h => Bool.noConfusion h⟩
              · have heq : Recovery.handleKeyDown s key =
                    { s with playerPos := (s.playerPos.1 + d.1, s.playerPos.2 + d.2), isOnValidPath := false, mistakes := s.mistakes + 1 } := by
                  simp [Recovery.handleKeyDown, hplay, hk, hin, hval, honf, hM]
                rw [heq]
                exact ⟨h1, fun h => Bool.noConfusion h⟩
          case neg =>
            have hvalf : s.isOnValidPath = false := Bool.eq_false_iff.mpr hval
            by_cases hlast : Recovery.isLastValidPosition s (s.playerPos.1 + d.1)
                (s.playerPos.2 + d.2) = true
            case pos =>
              have hcand := (isLastValidPosition_iff s _ _).mp hlast
              have heq : Recovery.handleKeyDown s key =
                  { s with playerPos := (s.playerPos.1 + d.1, s.playerPos.2 + d.2), isOnValidPath := true } := by
                simp [Recovery.handleKeyDown, hplay, hk, hin, hvalf, hlast]
              rw [heq]
              refine ⟨h1, fun _ => ?_⟩
              show (s.playerPos.1 + d.1, s.playerPos.2 + d.2) ∈ s.path
              rw [hcand]
              exact h1
            case neg =>
              have hlastf : Recovery.isLastValidPosition s (s.playerPos.1 + d.1)
                  (s.playerPos.2 + d.2) = false := Bool.eq_false_iff.mpr hlast
              have heq : Recovery.handleKeyDown s key = s := by
                simp [Recovery.handleKeyDown, hplay, hk, hin, hvalf, hlastf]
              rw [heq]; exact ⟨h1, h2⟩
  · intro s now hs
    obtain ⟨h1, h2⟩ := hs
    by_cases hplay : s.gameState = GState.playing
    · by_cases hle : max 0 (TIME_LIMIT - (now - s.startTime) / 1000) ≤ 0
      · have heq : Recovery.updateGame s now =
            { s with timeLeft := max 0 (TIME_LIMIT - (now - s.startTime) / 1000), gameState := GState.lost } := by
          simp [Recovery.updateGame, hplay, hle]
        rw [heq]; exact ⟨h1, h2⟩
      · have heq : Recovery.updateGame s now =
            { s with timeLeft := max 0 (TIME_LIMIT - (now - s.startTime) / 1000) } := by
          simp [Recovery.updateGame, hplay, hle]
        rw [heq]; exact ⟨h1, h2⟩
    · have heq : Recovery.updateGame s now = s := by
        simp [Recovery.updateGame, hplay]
      rw [heq]; exact ⟨h1, h2⟩
  · intro s hs
    obtain ⟨h1, h2⟩ := hs
    cases hlast : s.path.getLast? with
    | none =>
      have heq : Recovery.checkWinCondition s = s := by
        simp [Recovery.checkWinCondition, hlast]
      rw [heq]; exact ⟨h1, h2⟩
    | some e =>
      by_cases hpe : s.playerPos = e
      · have heq : Recovery.checkWinCondition s = { s with gameState := GState.won } := by
          simp [Recovery.checkWinCondition, hlast, hpe]
        rw [heq]; exact ⟨h1, h2⟩
      · have heq : Recovery.checkWinCondition s = s := by
          simp [Recovery.checkWinCondition, hlast, hpe]
        rw [heq]; exact ⟨h1, h2⟩

theorem recovery_invariant_preserved_witness :
    RecInv (Recovery.startGame (fun _ => directions) 0) ∧
    RecInv (Recovery.handleKeyDown sampleRecOn "w") ∧
    RecInv (Recovery.updateGame sampleRecOn 500) ∧
    RecInv (Recovery.checkWinCondition sampleRecOn) := by
  have hinv : RecInv sampleRecOn := ⟨by decide, fun _ => by decide⟩
  exact ⟨recovery_invariant_preserved.1 (fun _ => directions) 0 (fun _ => List.Subset.refl _),
    recovery_invariant_preserved.2.1 sampleRecOn "w" hinv,
    recovery_invariant_preserved.2.2.1 sampleRecOn 500 hinv,
    recovery_invariant_preserved.2.2.2 sampleRecOn hinv⟩
